import Mathlib

/-!
Shallow embedding of the paper-reader backend (Python, `src/backend/`).

Python strings are modelled as `List Char` (sequences of code points),
dictionaries used as records become structures, the in-memory paper store
becomes an association list, exceptions become `Except`, and the external
translation / generative-text capabilities become function parameters.
-/

namespace PaperReader

/-! ## Python string primitives -/

/-- `leadsWith p l` is true iff `p` is an initial segment of `l`. -/
def leadsWith : List Char → List Char → Bool
  | [], _ => true
  | _ :: _, [] => false
  | p :: ps, c :: cs => p == c && leadsWith ps cs

/-- Python `str.split(sep)` for a non-empty separator `c0 :: srest`:
scan left to right, breaking at each (non-overlapping, leftmost) occurrence
of the separator.  `acc` holds the current field, reversed; `skip` counts
separator characters still to be consumed after a match (so the recursion
is structural in the scanned list). -/
def pySplitGo (c0 : Char) (srest : List Char) : List Char → Nat → List Char → List (List Char)
  | [], _, acc => [acc.reverse]
  | _ :: cs, k + 1, acc => pySplitGo c0 srest cs k acc
  | c :: cs, 0, acc =>
    if c == c0 && leadsWith srest cs then
      acc.reverse :: pySplitGo c0 srest cs srest.length []
    else
      pySplitGo c0 srest cs 0 (c :: acc)

/-- Python `str.split(sep)` (non-empty separator; the empty-separator case
raises in Python and is never used by this code base). -/
def pySplitOn (sep : List Char) (l : List Char) : List (List Char) :=
  match sep with
  | [] => [l]
  | c0 :: srest => pySplitGo c0 srest l 0 []

/-- Python `str.strip()`: remove leading and trailing whitespace. -/
def pyStrip (l : List Char) : List Char :=
  ((l.dropWhile Char.isWhitespace).reverse.dropWhile Char.isWhitespace).reverse

/-- Word scanner: `acc` holds the current word, reversed; whitespace
flushes it. -/
def splitWSGo : List Char → List Char → List (List Char)
  | [], acc => if acc.isEmpty then [] else [acc.reverse]
  | c :: cs, acc =>
    if c.isWhitespace then
      if acc.isEmpty then splitWSGo cs [] else acc.reverse :: splitWSGo cs []
    else splitWSGo cs (c :: acc)

/-- Split a string into its maximal whitespace-free words, discarding all
whitespace.  Used to state segmentation losslessness independently of the
single-space / newline separators the segmenter introduces. -/
def splitWS (l : List Char) : List (List Char) := splitWSGo l []

/-! ## Section segmentation (`paper_ingestion.py`, `detect_sections`) -/

/-- One detected section: a heading line and its accumulated body text. -/
structure Sect where
  heading : List Char
  content : List Char
deriving Repr, DecidableEq

/-- The controlled vocabulary of `HEADING_PATTERNS[0]`, with the regex
alternation `X?` / `(?:A|B)` groups expanded into explicit lowercase
alternatives (the pattern is compiled with `re.I`). -/
def headingKeywords : List String :=
  ["abstract", "introduction", "related work", "background", "methodology",
   "methods", "method", "approach", "model", "experiments", "experiment",
   "results", "result", "discussion", "conclusions", "conclusion",
   "acknowledgments", "acknowledgment", "references", "appendix",
   "evaluation", "implementation", "system overview",
   "problem statement", "problem definition", "problem formulation",
   "proposed method", "proposed approach", "proposed framework", "proposed system",
   "experimental setup", "experimental results", "experimental evaluation",
   "limitations", "limitation", "future work", "datasets", "dataset",
   "training", "analysis", "summary"]

/-- Regex `\w` (ASCII part): letters, digits, underscore. -/
def wordChar (c : Char) : Bool := c.isAlphanum || c == '_'

/-- Does one of the vocabulary keywords match (case-insensitively) at the
start of `s`, followed by a word boundary `\b`? -/
def keywordAt (s : List Char) : Bool :=
  headingKeywords.any fun kw =>
    (s.take kw.length).map Char.toLower == kw.toList &&
      (match s.drop kw.length with
       | [] => true
       | c :: _ => !wordChar c)

/-- `HEADING_PATTERNS[0]`: `^(?:\d+\.?\s+)?(keyword-alternation)\b`, `re.I`.
The optional numeric prefix is one or more digits, an optional dot, then at
least one whitespace character; regex backtracking reduces to: either a
keyword matches at the start, or the (maximal) digit run plus optional dot
plus (maximal) whitespace run is followed by a keyword. -/
def pat1 (t : List Char) : Bool :=
  keywordAt t ||
    (let ds := t.takeWhile Char.isDigit
     !ds.isEmpty &&
       (let rest := t.drop ds.length
        let rest2 := match rest with
          | '.' :: r => r
          | r => r
        let ws := rest2.takeWhile Char.isWhitespace
        !ws.isEmpty && keywordAt (rest2.drop ws.length)))

/-- Regex `[A-Z][A-Za-z\s]{2,50}$`: an ASCII uppercase letter followed by
2 to 50 letters/whitespace characters reaching the end of the line. -/
def titleTail : List Char → Bool
  | [] => false
  | c :: r =>
    c.isUpper && decide (2 ≤ r.length) && decide (r.length ≤ 50) &&
      r.all (fun d => d.isAlpha || d.isWhitespace)

/-- Character class `[\dIVXivx]` of `HEADING_PATTERNS[1]`. -/
def romanDigit (c : Char) : Bool :=
  c.isDigit || c == 'I' || c == 'V' || c == 'X' || c == 'i' || c == 'v' || c == 'x'

/-- `HEADING_PATTERNS[1]`: `^(?:[\dIVXivx]+\.?\s+)[A-Z][A-Za-z\s]{2,50}$`. -/
def pat2 (t : List Char) : Bool :=
  let run := t.takeWhile romanDigit
  !run.isEmpty &&
    (let rest := t.drop run.length
     let rest2 := match rest with
       | '.' :: r => r
       | r => r
     let ws := rest2.takeWhile Char.isWhitespace
     !ws.isEmpty && titleTail (rest2.drop ws.length))

/-- `HEADING_PATTERNS[2]`: `^\d+\.\d*\s+[A-Z][A-Za-z\s]{2,50}$`. -/
def pat3 (t : List Char) : Bool :=
  let d1 := t.takeWhile Char.isDigit
  !d1.isEmpty &&
    (match t.drop d1.length with
     | '.' :: r =>
       let d2 := r.takeWhile Char.isDigit
       let rest2 := r.drop d2.length
       let ws := rest2.takeWhile Char.isWhitespace
       !ws.isEmpty && titleTail (rest2.drop ws.length)
     | _ => false)

/-- `is_heading` test of `detect_sections`: the trimmed line is shorter than
80 characters and matches at least one of the three heading patterns. -/
def isHeadingLine (t : List Char) : Bool :=
  decide (t.length < 80) && (pat1 t || pat2 t || pat3 t)

/-- The line loop of `detect_sections`: state is the current heading, the
current content accumulator and the sections emitted so far. -/
def sectLoop : List (List Char) → List Char → List Char → List Sect → List Sect
  | [], heading, content, acc =>
    if !(pyStrip content).isEmpty then acc ++ [⟨heading, pyStrip content⟩] else acc
  | line :: rest, heading, content, acc =>
    let t := pyStrip line
    if t.isEmpty then
      sectLoop rest heading (content ++ ['\n']) acc
    else if isHeadingLine t then
      sectLoop rest t []
        (if !(pyStrip content).isEmpty then acc ++ [⟨heading, pyStrip content⟩] else acc)
    else
      sectLoop rest heading (content ++ t ++ [' ']) acc

/-- `detect_sections` before the empty-result fallback: run the state
machine over the lines of `text`, starting in the synthetic "Header"
bucket with an empty accumulator. -/
def detectSectionsCore (text : List Char) : List Sect :=
  sectLoop (pySplitOn ['\n'] text) "Header".toList [] []

/-- `detect_sections`: the state machine result, or the single synthesized
"Full Text" section when the state machine emitted nothing. -/
def detect_sections (text : List Char) : List Sect :=
  let sections := detectSectionsCore text
  if sections.isEmpty then [⟨"Full Text".toList, pyStrip text⟩] else sections

/-- The trimmed non-blank lines of `text` (what claim C1 says is never
dropped). -/
def nonBlankLines (text : List Char) : List (List Char) :=
  ((pySplitOn ['\n'] text).map pyStrip).filter (fun t => !t.isEmpty)

/-- The words of every non-blank line that the segmenter does NOT classify
as a heading, in original order. -/
def nonHeadingWords (lines : List (List Char)) : List (List Char) :=
  lines.flatMap fun line =>
    let t := pyStrip line
    if t.isEmpty then [] else if isHeadingLine t then [] else splitWS t

/-- The words of all emitted sections' contents, in order. -/
def sectionWords (sections : List Sect) : List (List Char) :=
  sections.flatMap fun s => splitWS s.content

/-- `needle` occurs contiguously inside `hay`. -/
def containsSub (needle hay : List Char) : Bool :=
  match hay with
  | [] => leadsWith needle []
  | _ :: cs => leadsWith needle hay || containsSub needle cs

/-! ## Context chunking (`llm.py`, `chunk_text`) -/

/-- The greedy paragraph-accumulation loop of `chunk_text`: flush the
accumulator (stripped) whenever adding the next paragraph would exceed the
character budget and the accumulator is non-empty; every appended paragraph
drags a `"\n\n"` separator with it. -/
def chunkLoop (maxChars : Nat) : List (List Char) → List Char → List (List Char)
  | [], current =>
    if !(pyStrip current).isEmpty then [pyStrip current] else []
  | p :: ps, current =>
    if decide (current.length + p.length > maxChars) && !current.isEmpty then
      pyStrip current :: chunkLoop maxChars ps (p ++ ['\n', '\n'])
    else
      chunkLoop maxChars ps (current ++ p ++ ['\n', '\n'])

/-- `chunk_text` of `llm.py`: a whole text within budget is one chunk;
otherwise split on blank-line paragraph boundaries and accumulate greedily.
(`max_tokens` defaults to 12000 in the source.) -/
def chunk_text (text : List Char) (maxTokens : Nat) : List (List Char) :=
  let maxChars := maxTokens * 4
  if text.length ≤ maxChars then [text]
  else chunkLoop maxChars (pySplitOn ['\n', '\n'] text) []

/-! ## URL classification (`paper_ingestion.py`, `classify_url`) -/

/-- Classification result (the tagged dicts returned by `classify_url`). -/
inductive SourceDescriptor
  | arxiv (id : List Char)
  | doi (d : List Char)
  | pdf (url : List Char)
  | unknown (url : List Char)
  | invalid
deriving Repr, DecidableEq

/-- `re.match(r'^\d{4}\.\d{4,5}(v\d+)?$', url)`: a bare arXiv identifier. -/
def bareArxiv (l : List Char) : Bool :=
  (l.take 4).all Char.isDigit &&
    (match l.drop 4 with
     | '.' :: r =>
       let d2 := r.takeWhile Char.isDigit
       (d2.length == 4 || d2.length == 5) &&
         (match r.drop d2.length with
          | [] => true
          | 'v' :: vr => !vr.isEmpty && vr.all Char.isDigit
          | _ => false)
     | _ => false)

/-- `re.search`: try the position matcher `f` at each start position, left
to right, returning the first (leftmost) success. -/
def searchWith (f : List Char → Option (List Char)) : List Char → Option (List Char)
  | [] => f []
  | c :: cs =>
    match f (c :: cs) with
    | some r => some r
    | none => searchWith f cs

/-- Boolean `re.search`. -/
def searchBool (f : List Char → Bool) : List Char → Bool
  | [] => f []
  | c :: cs => f (c :: cs) || searchBool f cs

/-- Match `\d{4}\.\d{4,5}(?:v\d+)?` at the start of `l`, returning the
matched identifier (greedy: five digits preferred over four, version
suffix included when present). -/
def matchArxivIdAt (l : List Char) : Option (List Char) :=
  if (l.take 4).all Char.isDigit then
    match l.drop 4 with
    | '.' :: r =>
      let drun := r.takeWhile Char.isDigit
      if drun.length < 4 then none
      else
        let d2 := drun.take 5
        let idbase := l.take 4 ++ '.' :: d2
        match r.drop d2.length with
        | 'v' :: vr =>
          let vd := vr.takeWhile Char.isDigit
          if vd.isEmpty then some idbase else some (idbase ++ 'v' :: vd)
        | _ => some idbase
    | _ => none
  else none

/-- Match `\d{4}\.\d{4,5}` at the start of `l` (no version suffix group). -/
def matchArxivIdNoV (l : List Char) : Option (List Char) :=
  if (l.take 4).all Char.isDigit then
    match l.drop 4 with
    | '.' :: r =>
      let drun := r.takeWhile Char.isDigit
      if drun.length < 4 then none
      else some (l.take 4 ++ '.' :: drun.take 5)
    | _ => none
  else none

/-- `re.search(r'arxiv\.org/(?:abs|pdf)/(\d{4}\.\d{4,5}(?:v\d+)?)', url)`. -/
def searchArxivAbs (l : List Char) : Option (List Char) :=
  searchWith
    (fun s =>
      if leadsWith "arxiv.org/".toList s then
        let t := s.drop 10
        if leadsWith "abs/".toList t || leadsWith "pdf/".toList t then
          matchArxivIdAt (t.drop 4)
        else none
      else none) l

/-- `re.search(r'arXiv(\d{2})(\d{2})(\d{4,5})', url)` (case-sensitive),
rebuilt into `"{g1}{g2}.{g3}"`. -/
def searchAds (l : List Char) : Option (List Char) :=
  searchWith
    (fun s =>
      if leadsWith "arXiv".toList s then
        let ds := (s.drop 5).takeWhile Char.isDigit
        if decide (ds.length ≥ 8) then some (ds.take 4 ++ '.' :: (ds.drop 4).take 5)
        else none
      else none) l

/-- `re.search(r'huggingface\.co/papers/(\d{4}\.\d{4,5})', url)`. -/
def searchHF (l : List Char) : Option (List Char) :=
  searchWith
    (fun s =>
      if leadsWith "huggingface.co/papers/".toList s then
        matchArxivIdNoV (s.drop 22)
      else none) l

/-- `re.search(r'(10\.\d{4,}/\S+)', url)`: a DOI. -/
def searchDoi (l : List Char) : Option (List Char) :=
  searchWith
    (fun s =>
      if leadsWith "10.".toList s then
        let r := s.drop 3
        let ds := r.takeWhile Char.isDigit
        if decide (ds.length ≥ 4) then
          match r.drop ds.length with
          | '/' :: r2 =>
            let tl := r2.takeWhile (fun c => !c.isWhitespace)
            if tl.isEmpty then none else some ("10.".toList ++ ds ++ '/' :: tl)
          | _ => none
        else none
      else none) l

/-- `re.search(r'\.pdf(\?.*)?$', url, re.I)`: the URL contains a
case-insensitive `.pdf` that is either final or followed by a query string. -/
def pdfEnd (l : List Char) : Bool :=
  searchBool
    (fun s =>
      (s.take 4).map Char.toLower == ".pdf".toList &&
        (match s.drop 4 with
         | [] => true
         | '?' :: _ => true
         | _ => false)) l

/-- `classify_url`: strip, reject empty input, then run the ordered
recognizer cascade and return the first match. -/
def classify_url (url0 : List Char) : SourceDescriptor :=
  let url := pyStrip url0
  if url.isEmpty then .invalid
  else if bareArxiv url then .arxiv url
  else
    match searchArxivAbs url with
    | some id => .arxiv id
    | none =>
      match searchAds url with
      | some id => .arxiv id
      | none =>
        match searchHF url with
        | some id => .arxiv id
        | none =>
          match searchDoi url with
          | some d => .doi d
          | none =>
            if pdfEnd url then .pdf url
            else if leadsWith "http".toList url then .unknown url
            else .invalid

/-! ## Chunked translation (`translator.py`) -/

/-- Google Translate's per-request character limit used by the adapter. -/
def MAX_CHUNK : Nat := 4500

/-- The translation capability (`GoogleTranslator(...).translate`):
either a translated string or a raised exception message.  The target
language is fixed inside the capability. -/
abbrev Translator := List Char → Except (List Char) (List Char)

/-- The line-accumulation loop of `_translate_text`'s long-text branch:
flush the (unstripped) accumulator whenever adding the next line would
exceed `MAX_CHUNK` and the accumulator is non-empty; every appended line
drags a `"\n"` with it.  The final accumulator is appended unstripped if
it strips non-empty. -/
def transChunkLoop : List (List Char) → List Char → List (List Char)
  | [], current =>
    if !(pyStrip current).isEmpty then [current] else []
  | p :: ps, current =>
    if decide (current.length + p.length > MAX_CHUNK) && !current.isEmpty then
      current :: transChunkLoop ps (p ++ ['\n'])
    else
      transChunkLoop ps (current ++ p ++ ['\n'])

/-- The sub-chunks `_translate_text` builds for a long text. -/
def transChunks (text : List Char) : List (List Char) :=
  transChunkLoop (pySplitOn ['\n'] text) []

/-- `_translate_text`: empty-after-strip text is returned unchanged; text
within the limit is translated in one call; longer text is split into
sub-chunks, each translated independently (in order, the first raised
exception propagating), and rejoined with `"\n"`. -/
def _translate_text (tr : Translator) (text : List Char) : Except (List Char) (List Char) :=
  if (pyStrip text).isEmpty then .ok text
  else if text.length ≤ MAX_CHUNK then tr text
  else do
    let translated ← (transChunks text).mapM tr
    return List.intercalate ['\n'] translated

/-- Per-section body of `translate_sections`: a heading translation failure
falls back to the original heading, a content translation failure becomes
the inline `[Translation failed: ...]` marker. -/
def sectionTranslate (tr : Translator) (s : Sect) : List Char × List Char :=
  let h := match _translate_text tr s.heading with
    | .ok h2 => h2
    | .error _ => s.heading
  let c := match _translate_text tr s.content with
    | .ok c2 => c2
    | .error e => "[Translation failed: ".toList ++ e ++ [']']
  (h, c)

/-- `translate_sections`: one `(heading, translatedContent)` pair per input
section, in order. -/
def translate_sections (tr : Translator) (sections : List Sect) : List (List Char × List Char) :=
  sections.map (sectionTranslate tr)

/-! ## JSON / SSE framing (`main.py`, `sse_from_claude`) -/

def hexDigits : List Char := "0123456789abcdef".toList

/-- `\uXXXX` escape used by `json.dumps` (`ensure_ascii=True`). -/
def uEsc (n : Nat) : List Char :=
  ['\\', 'u', hexDigits.getD (n / 4096 % 16) '0', hexDigits.getD (n / 256 % 16) '0',
   hexDigits.getD (n / 16 % 16) '0', hexDigits.getD (n % 16) '0']

/-- Escaping of one character by `json.dumps` with its defaults. -/
def jsonEscapeChar (c : Char) : List Char :=
  if c == '"' then ['\\', '"']
  else if c == '\\' then ['\\', '\\']
  else if c == '\n' then ['\\', 'n']
  else if c == '\r' then ['\\', 'r']
  else if c == '\t' then ['\\', 't']
  else if c == '\x08' then ['\\', 'b']
  else if c == '\x0c' then ['\\', 'f']
  else if c.toNat < 0x20 then uEsc c.toNat
  else if c.toNat < 0x7f then [c]
  else if c.toNat < 0x10000 then uEsc c.toNat
  else uEsc (0xd800 + (c.toNat - 0x10000) / 0x400) ++ uEsc (0xdc00 + (c.toNat - 0x10000) % 0x400)

/-- `json.dumps` of a string value. -/
def jsonString (s : List Char) : List Char :=
  '"' :: (s.map jsonEscapeChar).flatten ++ ['"']

/-- The SSE frame for one token: `data: {"token": <json>}\n\n`
(`json.dumps({'token': token})` puts one space after the colon). -/
def tokenFrame (tok : List Char) : List Char :=
  "data: \x7b\"token\": ".toList ++ jsonString tok ++ "\x7d\n\n".toList

/-- The SSE frame for a boundary-caught exception:
`data: {"error": <json>}\n\n`. -/
def errorFrame (e : List Char) : List Char :=
  "data: \x7b\"error\": ".toList ++ jsonString e ++ "\x7d\n\n".toList

/-- The terminal sentinel frame `data: [DONE]\n\n`. -/
def doneFrame : List Char := "data: [DONE]\n\n".toList

/-- A completed run of the wrapped `stream_claude` generator: either it was
exhausted normally after yielding `tokens`, or it raised with message `msg`
after yielding `tokens` (forcible connection cancellation excluded). -/
inductive StreamOutcome
  | ok (tokens : List (List Char))
  | exn (tokens : List (List Char)) (msg : List Char)

/-- `sse_from_claude`: wrap each token in an SSE data frame, then emit the
done sentinel; an exception anywhere in production is caught at the stream
boundary and converted into a single error frame instead. -/
def sse_from_claude : StreamOutcome → List (List Char)
  | .ok toks => toks.map tokenFrame ++ [doneFrame]
  | .exn toks msg => toks.map tokenFrame ++ [errorFrame msg]

/-- The fixed head of every error frame. -/
def errorFramePre : List Char := "data: \x7b\"error\":".toList

/-- A frame is terminal iff it is the done sentinel or an error frame. -/
def isTerminalFrame (f : List Char) : Bool :=
  f == doneFrame || leadsWith errorFramePre f

/-! ## PTY output cleaning and the streaming bridge (`llm.py`) -/

/-- `re.sub(r'\x1b\[[0-9;]*[a-zA-Z]', '', text)`: remove CSI sequences. -/
def subCSI (l : List Char) : List Char :=
  match l with
  | [] => []
  | '\x1b' :: '[' :: rest =>
    match h : rest.dropWhile (fun c => c.isDigit || c == ';') with
    | c :: cs =>
      if c.isAlpha then subCSI cs else '\x1b' :: subCSI ('[' :: rest)
    | [] => '\x1b' :: subCSI ('[' :: rest)
  | c :: cs => c :: subCSI cs
  termination_by l.length
  decreasing_by
    · have h1 : (rest.dropWhile (fun c => c.isDigit || c == ';')).length ≤ rest.length :=
        (List.dropWhile_sublist _).length_le
      rw [h] at h1
      simp only [List.length_cons] at h1 ⊢
      omega
    · simp only [List.length_cons]; omega
    · simp only [List.length_cons]; omega
    · simp only [List.length_cons]; omega

/-- `re.sub(r'\x1b\][^\x07]*\x07', '', text)`: remove OSC sequences. -/
def subOSC (l : List Char) : List Char :=
  match l with
  | [] => []
  | '\x1b' :: ']' :: rest =>
    match h : rest.dropWhile (fun c => c != '\x07') with
    | _ :: cs => subOSC cs
    | [] => '\x1b' :: subOSC (']' :: rest)
  | c :: cs => c :: subOSC cs
  termination_by l.length
  decreasing_by
    · have h1 : (rest.dropWhile (fun c => c != '\x07')).length ≤ rest.length :=
        (List.dropWhile_sublist _).length_le
      rw [h] at h1
      simp only [List.length_cons] at h1 ⊢
      omega
    · simp only [List.length_cons]; omega
    · simp only [List.length_cons]; omega

/-- `re.sub(r'\x1b[()][AB012]', '', text)`: remove charset selection. -/
def subCharset (l : List Char) : List Char :=
  match l with
  | '\x1b' :: p :: c :: cs =>
    if (p == '(' || p == ')') &&
        (c == 'A' || c == 'B' || c == '0' || c == '1' || c == '2') then
      subCharset cs
    else '\x1b' :: subCharset (p :: c :: cs)
  | c :: cs => c :: subCharset cs
  | [] => []
  termination_by l.length
  decreasing_by
    · simp only [List.length_cons]; omega
    · simp only [List.length_cons]; omega
    · simp only [List.length_cons]; omega

/-- `_strip_ansi`: the three substitutions in source order, then removal of
every carriage return. -/
def _strip_ansi (l : List Char) : List Char :=
  (subCharset (subOSC (subCSI l))).filter (fun c => c != '\r')

/-- One completed child run as observed by `stream_claude`'s loop: the
sequence of successful `os.read` results (already UTF-8 decoded), the exit
status after reaping, and the captured stderr text. -/
structure ChildRun where
  reads : List (List Char)
  returncode : Int
  stderr : List Char

/-- The tokens the read loop yields: each read block cleaned by
`_strip_ansi`, empty cleans skipped. -/
def cleanTokens (reads : List (List Char)) : List (List Char) :=
  (reads.map _strip_ansi).filter (fun t => !t.isEmpty)

/-- The trailing error-annotated token `f"\n\n[Error: {err_msg}]"`. -/
def errToken (stderr : List Char) : List Char :=
  "\n\n[Error: ".toList ++ pyStrip stderr ++ [']']

/-- `stream_claude` as a function from a completed child run to the token
sequence it yields: the cleaned read blocks, then — only when the child
exited non-zero and its stripped stderr is non-empty — one trailing
error-annotated token.  Failure is never raised past this boundary. -/
def stream_claude (r : ChildRun) : List (List Char) :=
  let toks := cleanTokens r.reads
  if r.returncode != 0 then
    if !(pyStrip r.stderr).isEmpty then toks ++ [errToken r.stderr] else toks
  else toks

/-! ## UTF-8 and MD5 (`store_paper`'s content fingerprint) -/

/-- UTF-8 encoding of one code point (Python `str.encode()`). -/
def utf8Char (c : Char) : List Nat :=
  let n := c.toNat
  if n < 0x80 then [n]
  else if n < 0x800 then [0xC0 + n / 0x40, 0x80 + n % 0x40]
  else if n < 0x10000 then
    [0xE0 + n / 0x1000, 0x80 + n / 0x40 % 0x40, 0x80 + n % 0x40]
  else
    [0xF0 + n / 0x40000, 0x80 + n / 0x1000 % 0x40, 0x80 + n / 0x40 % 0x40, 0x80 + n % 0x40]

/-- UTF-8 encoding of a string, as a byte list. -/
def utf8Encode (s : List Char) : List Nat := (s.map utf8Char).flatten

/-- MD5 per-round left-rotation amounts. -/
def md5S : List Nat :=
  [7, 12, 17, 22, 7, 12, 17, 22, 7, 12, 17, 22, 7, 12, 17, 22,
   5, 9, 14, 20, 5, 9, 14, 20, 5, 9, 14, 20, 5, 9, 14, 20,
   4, 11, 16, 23, 4, 11, 16, 23, 4, 11, 16, 23, 4, 11, 16, 23,
   6, 10, 15, 21, 6, 10, 15, 21, 6, 10, 15, 21, 6, 10, 15, 21]

/-- MD5 sine-derived constants `K[i] = floor(2^32 * |sin(i+1)|)`. -/
def md5K : List Nat :=
  [0xd76aa478, 0xe8c7b756, 0x242070db, 0xc1bdceee,
   0xf57c0faf, 0x4787c62a, 0xa8304613, 0xfd469501,
   0x698098d8, 0x8b44f7af, 0xffff5bb1, 0x895cd7be,
   0x6b901122, 0xfd987193, 0xa679438e, 0x49b40821,
   0xf61e2562, 0xc040b340, 0x265e5a51, 0xe9b6c7aa,
   0xd62f105d, 0x02441453, 0xd8a1e681, 0xe7d3fbc8,
   0x21e1cde6, 0xc33707d6, 0xf4d50d87, 0x455a14ed,
   0xa9e3e905, 0xfcefa3f8, 0x676f02d9, 0x8d2a4c8a,
   0xfffa3942, 0x8771f681, 0x6d9d6122, 0xfde5380c,
   0xa4beea44, 0x4bdecfa9, 0xf6bb4b60, 0xbebfbc70,
   0x289b7ec6, 0xeaa127fa, 0xd4ef3085, 0x04881d05,
   0xd9d4d039, 0xe6db99e5, 0x1fa27cf8, 0xc4ac5665,
   0xf4292244, 0x432aff97, 0xab9423a7, 0xfc93a039,
   0x655b59c3, 0x8f0ccc92, 0xffeff47d, 0x85845dd1,
   0x6fa87e4f, 0xfe2ce6e0, 0xa3014314, 0x4e0811a1,
   0xf7537e82, 0xbd3af235, 0x2ad7d2bb, 0xeb86d391]

/-- 32-bit left rotation on `Nat` values below `2^32`. -/
def rotl32 (x n : Nat) : Nat := x * 2 ^ n % 2 ^ 32 + x / 2 ^ (32 - n)

/-- 32-bit bitwise complement for values below `2^32`. -/
def bnot32 (x : Nat) : Nat := 0xffffffff - x

/-- The MD5 round function for step `i`. -/
def md5F (i b c d : Nat) : Nat :=
  if i < 16 then b &&& c ||| bnot32 b &&& d
  else if i < 32 then d &&& b ||| bnot32 d &&& c
  else if i < 48 then b ^^^ c ^^^ d
  else c ^^^ (b ||| bnot32 d)

/-- The MD5 message-word index for step `i`. -/
def md5G (i : Nat) : Nat :=
  if i < 16 then i
  else if i < 32 then (5 * i + 1) % 16
  else if i < 48 then (3 * i + 5) % 16
  else 7 * i % 16

/-- `k` little-endian bytes of `n`. -/
def leBytes (k n : Nat) : List Nat := (List.range k).map fun i => n / 256 ^ i % 256

/-- MD5 padding: `0x80`, zeros to 56 mod 64, then the bit length as eight
little-endian bytes. -/
def md5Pad (msg : List Nat) : List Nat :=
  let z := (64 + 56 - (msg.length + 1) % 64) % 64
  msg ++ 0x80 :: List.replicate z 0 ++ leBytes 8 (8 * msg.length % 2 ^ 64)

/-- The sixteen little-endian 32-bit words of one 64-byte block. -/
def chunkWords (block : List Nat) : List Nat :=
  (List.range 16).map fun j =>
    block.getD (4 * j) 0 + 256 * block.getD (4 * j + 1) 0 +
      65536 * block.getD (4 * j + 2) 0 + 16777216 * block.getD (4 * j + 3) 0

/-- Block scanner: `k` is the remaining capacity of the current block,
`acc` the current block, reversed. -/
def toBlocksGo : List Nat → Nat → List Nat → List (List Nat)
  | [], _, acc => if acc.isEmpty then [] else [acc.reverse]
  | x :: xs, 0, acc => acc.reverse :: toBlocksGo xs 63 [x]
  | x :: xs, k + 1, acc => toBlocksGo xs k (x :: acc)

/-- Split the padded message into 64-byte blocks. -/
def toBlocks (l : List Nat) : List (List Nat) := toBlocksGo l 64 []

/-- One MD5 step. -/
def md5Step (M : List Nat) (st : Nat × Nat × Nat × Nat) (i : Nat) : Nat × Nat × Nat × Nat :=
  let (a, b, c, d) := st
  let tmp := (a + md5F i b c d + md5K.getD i 0 + M.getD (md5G i) 0) % 2 ^ 32
  (d, (b + rotl32 tmp (md5S.getD i 0)) % 2 ^ 32, b, c)

/-- One 64-byte block of MD5. -/
def md5Block (st0 : Nat × Nat × Nat × Nat) (block : List Nat) : Nat × Nat × Nat × Nat :=
  let M := chunkWords block
  let (a, b, c, d) := (List.range 64).foldl (md5Step M) st0
  let (a0, b0, c0, d0) := st0
  ((a0 + a) % 2 ^ 32, (b0 + b) % 2 ^ 32, (c0 + c) % 2 ^ 32, (d0 + d) % 2 ^ 32)

/-- The sixteen MD5 digest bytes of a byte message. -/
def md5Bytes (msg : List Nat) : List Nat :=
  let st := (toBlocks (md5Pad msg)).foldl md5Block (0x67452301, 0xefcdab89, 0x98badcfe, 0x10325476)
  leBytes 4 st.1 ++ leBytes 4 st.2.1 ++ leBytes 4 st.2.2.1 ++ leBytes 4 st.2.2.2

/-- Two lowercase hex digits of one byte. -/
def byteHex (b : Nat) : List Char := [hexDigits.getD (b / 16) '0', hexDigits.getD (b % 16) '0']

/-- `hashlib.md5(bytes).hexdigest()`. -/
def md5Hexdigest (msg : List Nat) : List Char := ((md5Bytes msg).map byteHex).flatten

/-! ## Paper store (`paper_ingestion.py`, `store_paper` / `get_paper`) -/

/-- The paper record built by `load_paper` (`id` is (re)assigned by
`store_paper`). -/
structure Paper where
  title : List Char
  authors : List (List Char)
  abstract : List Char
  fullText : List Char
  sections : List Sect
  numPages : Nat
  id : List Char
deriving Repr, DecidableEq

/-- The module-level `_papers` dict, modelled as an insertion-ordered
association list. -/
abbrev PaperStore := List (List Char × Paper)

/-- Python `dict.__setitem__`: overwrite in place when the key exists,
append otherwise. -/
def storeSet (m : PaperStore) (k : List Char) (v : Paper) : PaperStore :=
  if m.any (fun e => e.1 == k) then
    m.map fun e => if e.1 == k then (k, v) else e
  else m ++ [(k, v)]

/-- `get_paper` / `_papers.get`. -/
def storeGet (m : PaperStore) (k : List Char) : Option Paper :=
  match m.find? (fun e => e.1 == k) with
  | some e => some e.2
  | none => none

/-- `store_paper`: fingerprint the first 500 characters of `fullText`
(md5 hex digest truncated to 12), stamp the paper with the id, store it
under the id (last-write-wins), and return the id. -/
def store_paper (m : PaperStore) (paper : Paper) : List Char × PaperStore :=
  let pid := (md5Hexdigest (utf8Encode (paper.fullText.take 500))).take 12
  (pid, storeSet m pid { paper with id := pid })

/-! ## Chat prompt assembly (`main.py`, `api_chat`) -/

/-- One history entry of a chat request. -/
structure ChatMsg where
  role : List Char
  content : List Char
deriving Repr, DecidableEq

/-- `prompts.CHAT_SYSTEM.format(context=context)`. -/
def CHAT_SYSTEM (context : List Char) : List Char :=
  ("You are a helpful research assistant. Answer questions about the following paper.\n- Be precise and cite specific parts when relevant\n- Use markdown formatting\n- If the answer isn't in the paper, say so\n\nPaper content:\n").toList ++ context

/-- One history message rendered into the prompt. -/
def renderMsg (m : ChatMsg) : List Char :=
  (if m.role == "user".toList then "User: ".toList else "Assistant: ".toList) ++ m.content

/-- Python `history[-10:]`. -/
def pyLastSlice (n : Nat) (l : List ChatMsg) : List ChatMsg := l.drop (l.length - n)

/-- The prompt `api_chat` builds: system block with embedded context, the
last ten history messages in order, the new question, and the `Assistant:`
cue, joined by blank lines. -/
def api_chat_prompt (context question : List Char) (history : List ChatMsg) : List Char :=
  List.intercalate "\n\n".toList
    (CHAT_SYSTEM context ::
      ((pyLastSlice 10 history).map renderMsg ++
        ["User: ".toList ++ question, "Assistant:".toList]))

/-- The spec's ten-section scenario capability: translation succeeds with a
`T` prepended, except that it raises on the fourth section's content. -/
def scenarioTr : Translator := fun s =>
  if s == "content4".toList then .error "boom".toList else .ok ('T' :: s)

/-- The spec's ten-section scenario input. -/
def scenarioSecs : List Sect :=
  (List.range 10).map fun i =>
    ⟨"h".toList ++ [Char.ofNat (48 + (i + 1))],
     "content".toList ++ [Char.ofNat (48 + (i + 1))]⟩

/-- Concrete input for the translation-chunking analysis: a 2000-character
line, a 2499-character line, and a trailing newline (4501 characters in
total, so the chunking branch is taken). -/
def c8text : List Char :=
  List.replicate 2000 'a' ++ '\n' :: (List.replicate 2499 'b' ++ ['\n'])

/-- The single sub-chunk the adapter builds for `c8text`: both lines with
their dragged newlines, 4501 characters. -/
def c8chunk : List Char :=
  ((List.replicate 2000 'a' ++ ['\n']) ++ List.replicate 2499 'b') ++ ['\n']

/-- Concrete input for the segmentation analysis: a prose line followed by
a heading line whose section never accumulates content. -/
def c1text : List Char := "text\nIntroduction".toList

/-! ## Supporting lemmas -/

lemma length_pyStrip_le (l : List Char) : (pyStrip l).length ≤ l.length := by
  unfold pyStrip
  rw [List.length_reverse]
  refine le_trans (List.Sublist.length_le (List.dropWhile_sublist _)) ?_
  rw [List.length_reverse]
  exact List.Sublist.length_le (List.dropWhile_sublist _)

lemma pyStrip_nil : pyStrip [] = [] := rfl

lemma pyStrip_append_ws (x w : List Char) (hw : ∀ c ∈ w, c.isWhitespace = true) :
    pyStrip (x ++ w) = pyStrip x := by
  unfold pyStrip
  rw [List.dropWhile_append]
  by_cases h : (x.dropWhile Char.isWhitespace).isEmpty
  · have hx : x.dropWhile Char.isWhitespace = [] := by
      cases hd : x.dropWhile Char.isWhitespace with
      | nil => rfl
      | cons a l => rw [hd] at h; simp at h
    have hw2 : w.dropWhile Char.isWhitespace = [] := by
      rw [List.dropWhile_eq_nil_iff]
      exact hw
    simp [h, hx, hw2]
  · have hrev : ∀ a ∈ w.reverse, Char.isWhitespace a = true := by
      intro a ha
      exact hw a (List.mem_reverse.mp ha)
    simp only [h, if_false, Bool.false_eq_true]
    rw [List.reverse_append, List.dropWhile_append_of_pos hrev]

/-! ## C2: the sections list is never empty -/

/-- C2: for every input text (the empty string included), `detect_sections`
returns a non-empty list — when the state machine emits nothing, a single
"Full Text" fallback section is synthesized. -/
theorem claim2_sections_nonempty (text : List Char) : detect_sections text ≠ [] := by
  unfold detect_sections
  cases hc : detectSectionsCore text <;> simp [hc]

/-! ## C3: classifier precedence on the four sample inputs -/

/-- C3: `classify_url` evaluates its recognizers in cascade order:
a bare arXiv id classifies as arxiv; an arXiv abs URL classifies as arxiv
with the embedded id; a `.pdf` URL on an unrelated host classifies as a
direct PDF; any other `http` URL classifies as the generic/unknown case,
not as arxiv. -/
theorem claim3_classifier_precedence :
    classify_url "2301.00234".toList = .arxiv "2301.00234".toList ∧
    classify_url "https://arxiv.org/abs/2301.00234".toList = .arxiv "2301.00234".toList ∧
    classify_url "https://example.com/paper.pdf".toList =
      .pdf "https://example.com/paper.pdf".toList ∧
    classify_url "https://example.com/page".toList =
      .unknown "https://example.com/page".toList := by
  refine ⟨by decide, by decide, by decide, by decide⟩

/-! ## C6: child failure is folded into the stream, never raised -/

/-- C6: `stream_claude` never raises for a failed child: on non-zero exit
every already-produced token is still delivered, followed by exactly one
trailing `\n\n[Error: ...]` token when the stripped stderr is non-empty and
by nothing otherwise; on zero exit no trailing token is emitted. -/
theorem claim6_stream_error_folding (r : ChildRun) :
    (r.returncode ≠ 0 → pyStrip r.stderr ≠ [] →
      stream_claude r = cleanTokens r.reads ++ [errToken r.stderr]) ∧
    (r.returncode ≠ 0 → pyStrip r.stderr = [] →
      stream_claude r = cleanTokens r.reads) ∧
    (r.returncode = 0 → stream_claude r = cleanTokens r.reads) := by
  unfold stream_claude
  refine ⟨?_, ?_, ?_⟩
  · intro h1 h2
    simp [bne_iff_ne, h1, h2]
  · intro h1 h2
    simp [bne_iff_ne, h1, h2]
  · intro h1
    simp [h1]

/-- C6 witness: a concrete failed run with colored partial output and a
non-empty stderr yields the cleaned tokens plus one error token. -/
theorem claim6_witness :
    stream_claude ⟨["par\x1b[31mtial".toList], 1, " boom \n".toList⟩ =
      cleanTokens ["par\x1b[31mtial".toList] ++ [errToken " boom \n".toList] :=
  (claim6_stream_error_folding ⟨["par\x1b[31mtial".toList], 1, " boom \n".toList⟩).1
    (by decide) (by decide)

/-! ## C10: the chat prompt uses only the last ten history messages -/

/-- C10: the prompt built by `api_chat` depends on at most the last ten
history messages: any older messages prepended before a ten-message tail
are silently excluded, and a history of at most ten messages is used in
full (in original order, followed by the new question). -/
theorem claim10_chat_history (context question : List Char) (older kept : List ChatMsg)
    (h : kept.length = 10) :
    pyLastSlice 10 (older ++ kept) = kept ∧
    api_chat_prompt context question (older ++ kept) =
      api_chat_prompt context question kept ∧
    (∀ hist : List ChatMsg, hist.length ≤ 10 → pyLastSlice 10 hist = hist) := by
  have h1 : pyLastSlice 10 (older ++ kept) = kept := by
    unfold pyLastSlice
    rw [List.length_append, h]
    have h2 : older.length + 10 - 10 = older.length := by omega
    rw [h2, List.drop_left]
  refine ⟨h1, ?_, ?_⟩
  · have h3 : pyLastSlice 10 kept = kept := by
      unfold pyLastSlice
      rw [h]
      simp
    unfold api_chat_prompt
    rw [h1, h3]
  · intro hist hle
    unfold pyLastSlice
    have h4 : hist.length - 10 = 0 := by omega
    rw [h4]
    rfl

/-- C10 witness: with two older messages before ten kept ones, the prompt
equals the one built from the ten kept messages alone. -/
theorem claim10_witness :
    pyLastSlice 10
        (([⟨"user".toList, "old".toList⟩, ⟨"assistant".toList, "older".toList⟩] :
            List ChatMsg) ++ List.replicate 10 ⟨"user".toList, "m".toList⟩) =
      List.replicate 10 ⟨"user".toList, "m".toList⟩ ∧
    api_chat_prompt "CTX".toList "Q".toList
        (([⟨"user".toList, "old".toList⟩, ⟨"assistant".toList, "older".toList⟩] :
            List ChatMsg) ++ List.replicate 10 ⟨"user".toList, "m".toList⟩) =
      api_chat_prompt "CTX".toList "Q".toList
        (List.replicate 10 ⟨"user".toList, "m".toList⟩) ∧
    pyLastSlice 10 ([⟨"user".toList, "old".toList⟩] : List ChatMsg) =
      [⟨"user".toList, "old".toList⟩] := by
  have h := claim10_chat_history "CTX".toList "Q".toList
    [⟨"user".toList, "old".toList⟩, ⟨"assistant".toList, "older".toList⟩]
    (List.replicate 10 ⟨"user".toList, "m".toList⟩) (by decide)
  exact ⟨h.1, h.2.1, h.2.2 [⟨"user".toList, "old".toList⟩] (by decide)⟩

/-! ## C9: idempotent fingerprinting and last-write-wins store -/

lemma storeGet_storeSet (m : PaperStore) (k : List Char) (v : Paper) :
    storeGet (storeSet m k v) k = some v := by
  unfold storeSet storeGet
  by_cases h : m.any (fun e => e.1 == k)
  · simp only [h, if_true]
    induction m with
    | nil => simp at h
    | cons e rest ih =>
      by_cases he : e.1 == k
      · have he2 : e.1 = k := by simpa using he
        simp [he2, List.find?_cons]
      · have hr : rest.any (fun e => e.1 == k) := by
          simp only [List.any_cons, he, Bool.false_or] at h
          exact h
        simp only [List.map_cons, he, if_false, List.find?_cons, Bool.false_eq_true]
        exact ih hr
  · have hany : (m.any fun e => e.1 == k) = false := by
      cases ha : (m.any fun e => e.1 == k) with
      | false => rfl
      | true => exact absurd ha h
    have hnone : m.find? (fun e => e.1 == k) = none := by
      rw [List.find?_eq_none]
      intro e he
      by_contra hc
      exact h (List.any_of_mem he (by simpa using hc))
    rw [hany]
    simp only [Bool.false_eq_true, if_false]
    rw [List.find?_append, hnone]
    simp

lemma length_storeSet_of_mem (m : PaperStore) (k : List Char) (v : Paper)
    (h : m.any (fun e => e.1 == k)) : (storeSet m k v).length = m.length := by
  unfold storeSet
  rw [if_pos h]
  exact List.length_map _ _

lemma any_storeSet (m : PaperStore) (k : List Char) (v : Paper) :
    (storeSet m k v).any (fun e => e.1 == k) = true := by
  unfold storeSet
  by_cases h : m.any (fun e => e.1 == k)
  · rw [if_pos h]
    induction m with
    | nil => simp at h
    | cons e rest ih =>
      rw [List.map_cons, List.any_cons]
      by_cases he : (e.1 == k) = true
      · rw [if_pos he]
        have hk : ((k, v).1 == k) = true := by simp
        rw [hk, Bool.true_or]
      · rw [if_neg he]
        have hr : rest.any (fun e => e.1 == k) = true := by
          rw [List.any_cons] at h
          cases hor : (e.1 == k) with
          | true => exact absurd hor he
          | false => rw [hor, Bool.false_or] at h; exact h
        rw [ih hr, Bool.or_true]
  · rw [if_neg h, List.any_append]
    have hone : ([(k, v)].any fun e => e.1 == k) = true := by simp
    rw [hone, Bool.or_true]

/-- C9: storing two papers whose `fullText` agree on the first 500
characters yields the same id; the second store overwrites the entry under
that id with the second paper (last-write-wins) and adds no entry; from an
empty store, storing twice leaves exactly one entry. -/
theorem claim9_store_fingerprint (m : PaperStore) (p1 p2 : Paper)
    (h : p1.fullText.take 500 = p2.fullText.take 500) :
    (store_paper m p1).1 = (store_paper (store_paper m p1).2 p2).1 ∧
    storeGet (store_paper (store_paper m p1).2 p2).2 (store_paper m p1).1 =
      some { p2 with id := (store_paper m p1).1 } ∧
    (store_paper (store_paper m p1).2 p2).2.length = (store_paper m p1).2.length ∧
    (store_paper (store_paper ([] : PaperStore) p1).2 p2).2.length = 1 := by
  have hpid : (md5Hexdigest (utf8Encode (p1.fullText.take 500))).take 12 =
      (md5Hexdigest (utf8Encode (p2.fullText.take 500))).take 12 := by rw [h]
  unfold store_paper
  simp only []
  refine ⟨hpid, ?_, ?_, ?_⟩
  · rw [hpid]
    exact storeGet_storeSet _ _ _
  · rw [← hpid]
    exact length_storeSet_of_mem _ _ _ (any_storeSet _ _ _)
  · rw [← hpid]
    rw [length_storeSet_of_mem _ _ _ (any_storeSet _ _ _)]
    rfl

/-- C9 witness: two concrete papers sharing their leading text receive the
same id, the second overwrites the first, and the store holds one entry. -/
theorem claim9_witness :
    (store_paper [] ⟨"T1".toList, [], [], "same text".toList, [], 1, []⟩).1 =
      (store_paper (store_paper [] ⟨"T1".toList, [], [], "same text".toList, [], 1, []⟩).2
        ⟨"T2".toList, [], [], "same text".toList, [], 2, []⟩).1 ∧
    storeGet (store_paper
        (store_paper [] ⟨"T1".toList, [], [], "same text".toList, [], 1, []⟩).2
        ⟨"T2".toList, [], [], "same text".toList, [], 2, []⟩).2
      (store_paper [] ⟨"T1".toList, [], [], "same text".toList, [], 1, []⟩).1 =
      some { title := "T2".toList, authors := [], abstract := [],
             fullText := "same text".toList, sections := [], numPages := 2,
             id := (store_paper [] ⟨"T1".toList, [], [], "same text".toList, [], 1, []⟩).1 } ∧
    (store_paper (store_paper [] ⟨"T1".toList, [], [], "same text".toList, [], 1, []⟩).2
      ⟨"T2".toList, [], [], "same text".toList, [], 2, []⟩).2.length =
      (store_paper [] ⟨"T1".toList, [], [], "same text".toList, [], 1, []⟩).2.length ∧
    (store_paper (store_paper [] ⟨"T1".toList, [], [], "same text".toList, [], 1, []⟩).2
      ⟨"T2".toList, [], [], "same text".toList, [], 2, []⟩).2.length = 1 := by
  have h := claim9_store_fingerprint []
    ⟨"T1".toList, [], [], "same text".toList, [], 1, []⟩
    ⟨"T2".toList, [], [], "same text".toList, [], 2, []⟩ rfl
  exact h

/-! ## C7: per-section translation isolation -/

lemma translate_sections_getD (tr : Translator) (secs : List Sect) (i : Nat)
    (h : i < secs.length) :
    (translate_sections tr secs).getD i ([], []) =
      sectionTranslate tr (secs.getD i ⟨[], []⟩) := by
  unfold translate_sections
  induction secs generalizing i with
  | nil => simp at h
  | cons s rest ih =>
    cases i with
    | zero => simp [List.getD]
    | succ j =>
      simp only [List.map_cons, List.getD_cons_succ]
      exact ih j (by simpa using h)

/-- C7: `translate_sections` yields exactly one `(heading, content)` pair
per input section, in input order; a section whose heading translation
raises keeps its original heading; a section whose content translation
raises yields the inline `[Translation failed: ...]` marker while every
other section's pair is unaffected. -/
theorem claim7_translation_isolation (tr : Translator) (secs : List Sect) (i : Nat)
    (h : i < secs.length) :
    (translate_sections tr secs).length = secs.length ∧
    (∀ e, _translate_text tr (secs.getD i ⟨[], []⟩).content = .error e →
      ((translate_sections tr secs).getD i ([], [])).2 =
        "[Translation failed: ".toList ++ e ++ [']']) ∧
    (∀ c2, _translate_text tr (secs.getD i ⟨[], []⟩).content = .ok c2 →
      ((translate_sections tr secs).getD i ([], [])).2 = c2) ∧
    (∀ e, _translate_text tr (secs.getD i ⟨[], []⟩).heading = .error e →
      ((translate_sections tr secs).getD i ([], [])).1 = (secs.getD i ⟨[], []⟩).heading) ∧
    (∀ h2, _translate_text tr (secs.getD i ⟨[], []⟩).heading = .ok h2 →
      ((translate_sections tr secs).getD i ([], [])).1 = h2) := by
  rw [translate_sections_getD tr secs i h]
  refine ⟨by simp [translate_sections], ?_, ?_, ?_, ?_⟩
  · intro e he
    unfold sectionTranslate
    rw [he]
  · intro c2 hc
    unfold sectionTranslate
    rw [hc]
  · intro e he
    unfold sectionTranslate
    rw [he]
  · intro h2 hh
    unfold sectionTranslate
    rw [hh]

/-- C7 witness: in the ten-section scenario where section 4's content
translation raises, ten pairs come out and the fourth pair's content is the
inline failure marker. -/
theorem claim7_witness :
    (translate_sections scenarioTr scenarioSecs).length = scenarioSecs.length ∧
    ((translate_sections scenarioTr scenarioSecs).getD 3 ([], [])).2 =
      "[Translation failed: ".toList ++ "boom".toList ++ [']'] ∧
    ((translate_sections scenarioTr scenarioSecs).getD 4 ([], [])).2 =
      'T' :: "content5".toList := by
  have h3 := claim7_translation_isolation scenarioTr scenarioSecs 3 (by decide)
  have h4 := claim7_translation_isolation scenarioTr scenarioSecs 4 (by decide)
  exact ⟨h3.1, h3.2.1 "boom".toList rfl, h4.2.2.1 ('T' :: "content5".toList) rfl⟩

/-! ## C5: exactly one terminal SSE frame -/

lemma leadsWith_append_left (p l r : List Char) (h : p.length ≤ l.length) :
    leadsWith p (l ++ r) = leadsWith p l := by
  induction p generalizing l with
  | nil => rfl
  | cons a ps ih =>
    cases l with
    | nil => simp at h
    | cons c cs =>
      simp only [List.cons_append, leadsWith, List.append_eq]
      rw [ih cs (by simpa using h)]

lemma tokenFrame_beq_done (tok : List Char) : (tokenFrame tok == doneFrame) = false := by
  rw [beq_eq_false_iff_ne]
  intro heq
  have h2 : leadsWith "data: \x7b".toList (tokenFrame tok) =
      leadsWith "data: \x7b".toList doneFrame := by rw [heq]
  unfold tokenFrame at h2
  rw [List.append_assoc, leadsWith_append_left _ _ _ (by decide)] at h2
  have h3 : leadsWith "data: \x7b".toList "data: \x7b\"token\": ".toList = true := by decide
  have h4 : leadsWith "data: \x7b".toList doneFrame = false := by decide
  rw [h3, h4] at h2
  exact Bool.true_eq_false.mp h2

lemma errorFrame_beq_done (e : List Char) : (errorFrame e == doneFrame) = false := by
  rw [beq_eq_false_iff_ne]
  intro heq
  have h2 : leadsWith "data: \x7b".toList (errorFrame e) =
      leadsWith "data: \x7b".toList doneFrame := by rw [heq]
  unfold errorFrame at h2
  rw [List.append_assoc, leadsWith_append_left _ _ _ (by decide)] at h2
  have h3 : leadsWith "data: \x7b".toList "data: \x7b\"error\": ".toList = true := by decide
  have h4 : leadsWith "data: \x7b".toList doneFrame = false := by decide
  rw [h3, h4] at h2
  exact Bool.true_eq_false.mp h2

lemma isTerminal_tokenFrame (tok : List Char) : isTerminalFrame (tokenFrame tok) = false := by
  unfold isTerminalFrame
  rw [tokenFrame_beq_done]
  have h3 : leadsWith errorFramePre (tokenFrame tok) = false := by
    unfold tokenFrame
    rw [List.append_assoc, leadsWith_append_left _ _ _ (by decide)]
    decide
  rw [h3]
  rfl

lemma isTerminal_errorFrame (e : List Char) : isTerminalFrame (errorFrame e) = true := by
  unfold isTerminalFrame
  have h3 : leadsWith errorFramePre (errorFrame e) = true := by
    unfold errorFrame
    rw [List.append_assoc, leadsWith_append_left _ _ _ (by decide)]
    decide
  rw [h3, Bool.or_true]

lemma isTerminal_doneFrame : isTerminalFrame doneFrame = true := by decide

lemma countP_tokenFrames_terminal (toks : List (List Char)) :
    List.countP isTerminalFrame (toks.map tokenFrame) = 0 := by
  induction toks with
  | nil => rfl
  | cons t rest ih =>
    simp [List.countP_cons, isTerminal_tokenFrame, ih]

lemma countP_tokenFrames_done (toks : List (List Char)) :
    List.countP (fun f => f == doneFrame) (toks.map tokenFrame) = 0 := by
  induction toks with
  | nil => rfl
  | cons t rest ih =>
    simp [List.countP_cons, tokenFrame_beq_done, ih]

lemma getLastD_concat' (xs : List (List Char)) (x d : List Char) :
    (xs ++ [x]).getLastD d = x := by
  induction xs generalizing d with
  | nil => rfl
  | cons a rest ih =>
    rw [List.cons_append, List.getLastD_cons]
    exact ih a

/-- C5: every completed `sse_from_claude` stream contains exactly one
terminal frame and it is the last frame: a normally exhausted token stream
ends with the single `data: [DONE]` sentinel (and contains it exactly
once), and a stream whose production raised ends with a single error frame
and contains no done sentinel. -/
theorem claim5_stream_termination (toks : List (List Char)) (e : List Char) :
    List.countP isTerminalFrame (sse_from_claude (.ok toks)) = 1 ∧
    (sse_from_claude (.ok toks)).getLastD [] = doneFrame ∧
    List.countP (fun f => f == doneFrame) (sse_from_claude (.ok toks)) = 1 ∧
    List.countP isTerminalFrame (sse_from_claude (.exn toks e)) = 1 ∧
    (sse_from_claude (.exn toks e)).getLastD [] = errorFrame e ∧
    List.countP (fun f => f == doneFrame) (sse_from_claude (.exn toks e)) = 0 := by
  simp only [sse_from_claude]
  refine ⟨?_, getLastD_concat' _ _ _, ?_, ?_, getLastD_concat' _ _ _, ?_⟩
  · rw [List.countP_append, countP_tokenFrames_terminal]
    simp [List.countP_cons, isTerminal_doneFrame]
  · rw [List.countP_append, countP_tokenFrames_done]
    simp [List.countP_cons]
  · rw [List.countP_append, countP_tokenFrames_terminal]
    simp [List.countP_cons, isTerminal_errorFrame]
  · rw [List.countP_append, countP_tokenFrames_done]
    simp [List.countP_cons, errorFrame_beq_done]

/-! ## C4: the context chunk budget -/

lemma chunkLoop_bound (maxChars : Nat) (G : List Char → Prop) :
    ∀ paras : List (List Char), (∀ p ∈ paras, G p) →
    ∀ current : List Char,
      (current = [] ∨ (pyStrip current).length ≤ maxChars ∨
        ∃ p, G p ∧ current = p ++ ['\n', '\n']) →
    ∀ c ∈ chunkLoop maxChars paras current,
      c.length ≤ maxChars ∨ ∃ p, G p ∧ c = pyStrip p := by
  intro paras
  induction paras with
  | nil =>
    intro _ current hinv c hc
    unfold chunkLoop at hc
    by_cases hs : (pyStrip current).isEmpty
    · simp [hs] at hc
    · simp only [hs, Bool.not_false, if_true, List.mem_singleton] at hc
      subst hc
      rcases hinv with h0 | hle | ⟨p, hG, hp⟩
      · rw [h0] at hs
        exact absurd rfl hs
      · exact Or.inl hle
      · right
        exact ⟨p, hG, by rw [hp, pyStrip_append_ws _ _ (by decide)]⟩
  | cons p ps ih =>
    intro hG current hinv c hc
    unfold chunkLoop at hc
    by_cases hb : (decide (current.length + p.length > maxChars) && !current.isEmpty) = true
    · rw [if_pos hb] at hc
      rcases List.mem_cons.mp hc with rfl | hc2
      · have hne : current ≠ [] := by
          rcases Bool.and_eq_true_iff.mp hb with ⟨_, h2⟩
          intro h0
          rw [h0] at h2
          simp at h2
        rcases hinv with h0 | hle | ⟨q, hGq, hq⟩
        · exact absurd h0 hne
        · exact Or.inl hle
        · right
          exact ⟨q, hGq, by rw [hq, pyStrip_append_ws _ _ (by decide)]⟩
      · exact ih (fun x hx => hG x (List.mem_cons_of_mem _ hx)) _
          (Or.inr (Or.inr ⟨p, hG p (List.mem_cons_self _ _), rfl⟩)) c hc2
    · rw [if_neg hb] at hc
      have hcases : current = [] ∨ current.length + p.length ≤ maxChars := by
        by_cases h0 : current = []
        · exact Or.inl h0
        · right
          by_contra hgt
          apply hb
          refine Bool.and_eq_true_iff.mpr ⟨decide_eq_true (by omega), ?_⟩
          cases current with
          | nil => exact absurd rfl h0
          | cons a l => rfl
      rcases hcases with h0 | hle
      · subst h0
        exact ih (fun x hx => hG x (List.mem_cons_of_mem _ hx)) _
          (Or.inr (Or.inr ⟨p, hG p (List.mem_cons_self _ _), by simp⟩)) c hc
      · refine ih (fun x hx => hG x (List.mem_cons_of_mem _ hx)) _ (Or.inr (Or.inl ?_)) c hc
        rw [pyStrip_append_ws (current ++ p) _ (by decide)]
        calc (pyStrip (current ++ p)).length
            ≤ (current ++ p).length := length_pyStrip_le _
          _ = current.length + p.length := List.length_append _ _
          _ ≤ maxChars := hle

/-- C4: every chunk produced by `chunk_text` fits the `max_tokens * 4`
character budget, except a chunk that is a single (stripped) paragraph of
the input, kept intact even though it alone exceeds the budget. -/
theorem claim4_chunk_budget (text : List Char) (maxTokens : Nat) (hpos : 0 < maxTokens) :
    ∀ c ∈ chunk_text text maxTokens, maxTokens * 4 < c.length →
      ∃ p ∈ pySplitOn ['\n', '\n'] text, c = pyStrip p := by
  intro c hc hgt
  simp only [chunk_text] at hc
  by_cases hlen : text.length ≤ maxTokens * 4
  · rw [if_pos hlen] at hc
    simp only [List.mem_singleton] at hc
    subst hc
    omega
  · rw [if_neg hlen] at hc
    have h := chunkLoop_bound (maxTokens * 4) (fun p => p ∈ pySplitOn ['\n', '\n'] text)
      (pySplitOn ['\n', '\n'] text) (fun _ hp => hp) [] (Or.inl rfl) c hc
    rcases h with hle | ⟨p, hp, hcp⟩
    · omega
    · exact ⟨p, hp, hcp⟩

/-- C4 witness: with a one-token budget, an eight-character input is a
single oversized chunk equal to its own (stripped) only paragraph. -/
theorem claim4_witness :
    ∃ p ∈ pySplitOn ['\n', '\n'] "aaaaaaaa".toList, "aaaaaaaa".toList = pyStrip p :=
  claim4_chunk_budget "aaaaaaaa".toList 1 (by decide) "aaaaaaaa".toList (by decide) (by decide)

/-! ## C8: translation sub-chunk size -/

lemma pySplitGo_no_sep (c0 a : Char) (h : (a == c0) = false) :
    ∀ (n : Nat) (l acc : List Char),
      pySplitGo c0 [] (List.replicate n a ++ l) 0 acc =
        pySplitGo c0 [] l 0 (List.replicate n a ++ acc) := by
  intro n
  induction n with
  | zero => intro l acc; simp
  | succ m ih =>
    intro l acc
    rw [List.replicate_succ, List.cons_append]
    show pySplitGo c0 [] (a :: (List.replicate m a ++ l)) 0 acc = _
    simp only [pySplitGo, leadsWith, h, Bool.false_and, Bool.false_eq_true, if_false]
    rw [ih l (a :: acc)]
    have hacc : List.replicate m a ++ a :: acc = List.replicate (m + 1) a ++ acc := by
      rw [List.replicate_succ', List.append_assoc]
      rfl
    rw [hacc]
    rw [List.replicate_succ, List.cons_append]

lemma c8lines : pySplitOn ['\n'] c8text =
    [List.replicate 2000 'a', List.replicate 2499 'b', []] := by
  have h0 : pySplitOn ['\n'] c8text = pySplitGo '\n' [] c8text 0 [] := rfl
  rw [h0]
  unfold c8text
  rw [pySplitGo_no_sep '\n' 'a' (by decide) 2000 _ []]
  simp only [List.append_nil]
  have h1 : pySplitGo '\n' [] ('\n' :: (List.replicate 2499 'b' ++ ['\n'])) 0
      (List.replicate 2000 'a') =
      (List.replicate 2000 'a').reverse ::
        pySplitGo '\n' [] (List.replicate 2499 'b' ++ ['\n']) 0 [] := rfl
  rw [h1, List.reverse_replicate]
  rw [pySplitGo_no_sep '\n' 'b' (by decide) 2499 _ []]
  simp only [List.append_nil]
  have h2 : pySplitGo '\n' [] ['\n'] 0 (List.replicate 2499 'b') =
      (List.replicate 2499 'b').reverse :: pySplitGo '\n' [] [] 0 [] := rfl
  rw [h2, List.reverse_replicate]
  rfl

lemma transChunkLoop_cons_eq (p : List Char) (ps : List (List Char)) (current : List Char) :
    transChunkLoop (p :: ps) current =
      if decide (current.length + p.length > MAX_CHUNK) && !current.isEmpty then
        current :: transChunkLoop ps (p ++ ['\n'])
      else transChunkLoop ps (current ++ p ++ ['\n']) := rfl

lemma c8chunks : transChunks c8text = [c8chunk] := by
  unfold transChunks
  rw [c8lines, transChunkLoop_cons_eq]
  have hl1 : ([] : List Char).length + (List.replicate 2000 'a').length = 2000 := by
    simp only [List.length_append, List.length_replicate, List.length_cons, List.length_nil]
    try omega
  have hc1 : (decide (([] : List Char).length + (List.replicate 2000 'a').length > MAX_CHUNK)
      && !([] : List Char).isEmpty) = false := by
    rw [hl1]
    decide
  rw [hc1]
  simp only [Bool.false_eq_true, if_false, List.nil_append]
  rw [transChunkLoop_cons_eq]
  have hl2 : (List.replicate 2000 'a' ++ ['\n']).length +
      (List.replicate 2499 'b').length = 4500 := by
    simp only [List.length_append, List.length_replicate, List.length_cons, List.length_nil]
    try omega
  have hc2 : (decide ((List.replicate 2000 'a' ++ ['\n']).length +
      (List.replicate 2499 'b').length > MAX_CHUNK)
      && !(List.replicate 2000 'a' ++ ['\n']).isEmpty) = false := by
    rw [hl2]
    decide
  rw [hc2]
  simp only [Bool.false_eq_true, if_false]
  rw [transChunkLoop_cons_eq]
  have hl3 : ((List.replicate 2000 'a' ++ ['\n']) ++ List.replicate 2499 'b' ++
      ['\n']).length + ([] : List Char).length = 4501 := by
    simp only [List.length_append, List.length_replicate, List.length_cons, List.length_nil]
    try omega
  have hc3 : (decide (((List.replicate 2000 'a' ++ ['\n']) ++ List.replicate 2499 'b' ++
      ['\n']).length + ([] : List Char).length > MAX_CHUNK)
      && !((List.replicate 2000 'a' ++ ['\n']) ++ List.replicate 2499 'b' ++
        ['\n']).isEmpty) = true := by
    rw [hl3]
    decide
  rw [hc3]
  simp only [if_true, List.nil_append]
  have h4 : transChunkLoop [] ['\n'] = [] := by
    show (if !(pyStrip ['\n']).isEmpty then [['\n']] else []) = []
    decide
  rw [h4]
  rfl

/-- C8 counterexample: on `c8text` (two lines of 2000 and 2499 characters),
the adapter builds a single 4501-character sub-chunk even though no single
line exceeds the 4500-character limit — refuting the claim that every
sub-chunk is no larger than the limit save single oversized lines. -/
theorem claim8_counterexample :
    ¬ (∀ c ∈ transChunks c8text, c.length ≤ MAX_CHUNK ∨
        ∃ l ∈ pySplitOn ['\n'] c8text, MAX_CHUNK < l.length ∧ c = l ++ ['\n']) := by
  intro h
  have hmem : c8chunk ∈ transChunks c8text := by
    rw [c8chunks]
    exact List.mem_singleton.mpr rfl
  have hMC : MAX_CHUNK = 4500 := rfl
  rcases h c8chunk hmem with hle | ⟨l, hl, hlen, _⟩
  · have hch : c8chunk.length = 4501 := by
      unfold c8chunk
      simp only [List.length_append, List.length_replicate, List.length_cons, List.length_nil]
      try omega
    omega
  · rw [c8lines] at hl
    have h2000 : (List.replicate 2000 'a').length = 2000 := List.length_replicate _ _
    have h2499 : (List.replicate 2499 'b').length = 2499 := List.length_replicate _ _
    rcases List.mem_cons.mp hl with rfl | hl2
    · omega
    · rcases List.mem_cons.mp hl2 with rfl | hl3
      · omega
      · rcases List.mem_cons.mp hl3 with rfl | hl4
        · rw [List.length_nil] at hlen
          omega
        · simp at hl4

lemma transChunkLoop_bound (G : List Char → Prop) :
    ∀ lines : List (List Char), (∀ l ∈ lines, G l) →
    ∀ current : List Char,
      (current = [] ∨ current.length ≤ MAX_CHUNK + 1 ∨ ∃ l, G l ∧ current = l ++ ['\n']) →
    ∀ c ∈ transChunkLoop lines current,
      c.length ≤ MAX_CHUNK + 1 ∨ ∃ l, G l ∧ c = l ++ ['\n'] := by
  intro lines
  induction lines with
  | nil =>
    intro _ current hinv c hc
    unfold transChunkLoop at hc
    by_cases hs : (pyStrip current).isEmpty
    · simp [hs] at hc
    · simp only [hs, Bool.not_false, if_true, List.mem_singleton] at hc
      subst hc
      rcases hinv with h0 | hle | hex
      · rw [h0] at hs
        exact absurd rfl hs
      · exact Or.inl hle
      · exact Or.inr hex
  | cons p ps ih =>
    intro hG current hinv c hc
    rw [transChunkLoop_cons_eq] at hc
    by_cases hb : (decide (current.length + p.length > MAX_CHUNK) && !current.isEmpty) = true
    · rw [if_pos hb] at hc
      rcases List.mem_cons.mp hc with rfl | hc2
      · rcases hinv with h0 | hle | hex
        · rcases Bool.and_eq_true_iff.mp hb with ⟨_, h2⟩
          rw [h0] at h2
          simp at h2
        · exact Or.inl hle
        · exact Or.inr hex
      · exact ih (fun x hx => hG x (List.mem_cons_of_mem _ hx)) _
          (Or.inr (Or.inr ⟨p, hG p (List.mem_cons_self _ _), rfl⟩)) c hc2
    · rw [if_neg hb] at hc
      have hcases : current = [] ∨ current.length + p.length ≤ MAX_CHUNK := by
        by_cases h0 : current = []
        · exact Or.inl h0
        · right
          by_contra hgt
          apply hb
          refine Bool.and_eq_true_iff.mpr ⟨decide_eq_true (by omega), ?_⟩
          cases current with
          | nil => exact absurd rfl h0
          | cons a l => rfl
      rcases hcases with h0 | hle
      · subst h0
        exact ih (fun x hx => hG x (List.mem_cons_of_mem _ hx)) _
          (Or.inr (Or.inr ⟨p, hG p (List.mem_cons_self _ _), by simp⟩)) c hc
      · refine ih (fun x hx => hG x (List.mem_cons_of_mem _ hx)) _ (Or.inr (Or.inl ?_)) c hc
        simp only [List.length_append, List.length_singleton]
        omega

/-- C8 (amended): when content is longer than `MAX_CHUNK`, `_translate_text`
splits it on line boundaries into sub-chunks of at most `MAX_CHUNK + 1`
characters (each accumulated line drags a newline; a sub-chunk holding a
single line that alone exceeds the limit is that line plus its newline),
translates each sub-chunk independently and rejoins them with `"\n"`. -/
theorem claim8_translation_chunking (text : List Char) :
    (∀ c ∈ transChunks text,
      c.length ≤ MAX_CHUNK + 1 ∨ ∃ l ∈ pySplitOn ['\n'] text, c = l ++ ['\n']) ∧
    (MAX_CHUNK < text.length → pyStrip text ≠ [] →
      ∀ tr : Translator, _translate_text tr text =
        (do
          let translated ← (transChunks text).mapM tr
          return List.intercalate ['\n'] translated)) := by
  constructor
  · intro c hc
    have h := transChunkLoop_bound (fun l => l ∈ pySplitOn ['\n'] text)
      (pySplitOn ['\n'] text) (fun _ hp => hp) [] (Or.inl rfl) c hc
    rcases h with hle | ⟨l, hl, hcl⟩
    · exact Or.inl hle
    · exact Or.inr ⟨l, hl, hcl⟩
  · intro hlen hne tr
    unfold _translate_text
    have h1 : ¬ ((pyStrip text).isEmpty = true) := by
      intro hi
      apply hne
      cases hpt : pyStrip text with
      | nil => rfl
      | cons a l =>
        rw [hpt] at hi
        simp at hi
    have hM : MAX_CHUNK = 4500 := rfl
    rw [if_neg h1, if_neg (by omega : ¬ text.length ≤ MAX_CHUNK)]

/-- C8 witness: a small two-character content gives a sub-chunk within the
amended bound, and a 4501-character single-line content takes the split /
translate-each / rejoin path. -/
theorem claim8_witness :
    ("ab\n".toList.length ≤ MAX_CHUNK + 1 ∨
      ∃ l ∈ pySplitOn ['\n'] "ab".toList, "ab\n".toList = l ++ ['\n']) ∧
    _translate_text (fun s => .ok s) (List.replicate 4501 'x') =
      (do
        let translated ← (transChunks (List.replicate 4501 'x')).mapM (fun s => .ok s)
        return List.intercalate ['\n'] translated) := by
  constructor
  · exact (claim8_translation_chunking "ab".toList).1 "ab\n".toList (by decide)
  · have hstrip : pyStrip (List.replicate 4501 'x') = List.replicate 4501 'x' := by
      have hx : ∀ n : Nat, List.dropWhile Char.isWhitespace (List.replicate n 'x') =
          List.replicate n 'x' := by
        intro n
        cases n with
        | zero => rfl
        | succ m =>
          rw [List.replicate_succ]
          rw [List.dropWhile_cons_of_neg (by decide)]
      unfold pyStrip
      rw [hx, List.reverse_replicate, hx, List.reverse_replicate]
    refine (claim8_translation_chunking (List.replicate 4501 'x')).2
      (by rw [List.length_replicate]; decide) ?_ _
    rw [hstrip]
    intro hnil
    have hlen2 := congrArg List.length hnil
    rw [List.length_replicate, List.length_nil] at hlen2
    exact absurd hlen2 (by decide)

/-! ## C1: what segmentation preserves -/

/-- Every character is whitespace. -/
def AllWS (l : List Char) : Prop := ∀ c ∈ l, c.isWhitespace = true

/-- Empty, or ending in a whitespace character (the shape of the
segmenter's content accumulator). -/
def EndsWSP (l : List Char) : Prop :=
  l = [] ∨ ∃ l0 w, l = l0 ++ [w] ∧ w.isWhitespace = true

lemma allWS_newline : AllWS ['\n'] := by
  intro c hc
  rw [List.mem_singleton.mp hc]
  rfl

lemma allWS_space : AllWS [' '] := by
  intro c hc
  rw [List.mem_singleton.mp hc]
  rfl

lemma splitWS_nil : splitWS [] = [] := rfl

lemma splitWSGo_allWS : ∀ w : List Char, AllWS w → ∀ acc : List Char,
    splitWSGo w acc = if acc.isEmpty then [] else [acc.reverse] := by
  intro w
  induction w with
  | nil => intro _ _; rfl
  | cons c cs ih =>
    intro hw acc
    have hc : c.isWhitespace = true := hw c (List.mem_cons_self _ _)
    have hcs : AllWS cs := fun d hd => hw d (List.mem_cons_of_mem _ hd)
    simp only [splitWSGo, hc, if_true]
    by_cases ha : acc.isEmpty
    · rw [if_pos ha, if_pos ha, ih hcs []]
      rfl
    · rw [if_neg ha, if_neg ha, ih hcs []]
      rfl

lemma splitWSGo_append_ws : ∀ x w : List Char, AllWS w → ∀ acc,
    splitWSGo (x ++ w) acc = splitWSGo x acc := by
  intro x
  induction x with
  | nil =>
    intro w hw acc
    rw [List.nil_append, splitWSGo_allWS w hw acc]
    rfl
  | cons c cs ih =>
    intro w hw acc
    rw [List.cons_append]
    simp only [splitWSGo]
    by_cases hc : c.isWhitespace
    · by_cases ha : acc.isEmpty
      · rw [if_pos hc, if_pos hc, if_pos ha, if_pos ha, ih w hw []]
      · rw [if_pos hc, if_pos hc, if_neg ha, if_neg ha, ih w hw []]
    · rw [if_neg hc, if_neg hc, ih w hw (c :: acc)]

lemma splitWS_append_ws (x w : List Char) (hw : AllWS w) : splitWS (x ++ w) = splitWS x :=
  splitWSGo_append_ws x w hw []

lemma splitWSGo_append_endsWS : ∀ a : List Char,
    (∃ a0 w, a = a0 ++ [w] ∧ w.isWhitespace = true) → ∀ b acc : List Char,
    splitWSGo (a ++ b) acc = splitWSGo a acc ++ splitWSGo b [] := by
  intro a
  induction a with
  | nil =>
    intro h
    exfalso
    rcases h with ⟨a0, w, h1, _⟩
    cases a0 <;> simp at h1
  | cons c cs ih =>
    intro h b acc
    rcases h with ⟨a0, w, h1, hw⟩
    cases a0 with
    | nil =>
      rw [List.nil_append] at h1
      injection h1 with hcw hcs
      subst hcs
      have hc : c.isWhitespace = true := by rw [hcw]; exact hw
      rw [List.cons_append, List.nil_append]
      simp only [splitWSGo, hc, if_true]
      by_cases ha : acc.isEmpty
      · rw [if_pos ha, if_pos ha]
        rfl
      · rw [if_neg ha, if_neg ha]
        rfl
    | cons a0h a0t =>
      rw [List.cons_append] at h1
      injection h1 with hch hcs
      have hcs' : ∃ a0 w2, cs = a0 ++ [w2] ∧ w2.isWhitespace = true := ⟨a0t, w, hcs, hw⟩
      rw [List.cons_append]
      simp only [splitWSGo]
      by_cases hc : c.isWhitespace
      · by_cases ha : acc.isEmpty
        · rw [if_pos hc, if_pos hc, if_pos ha, if_pos ha]
          exact ih hcs' b []
        · rw [if_pos hc, if_pos hc, if_neg ha, if_neg ha, ih hcs' b []]
          rfl
      · rw [if_neg hc, if_neg hc]
        exact ih hcs' b (c :: acc)

lemma splitWS_append_endsWS (a b : List Char) (h : EndsWSP a) :
    splitWS (a ++ b) = splitWS a ++ splitWS b := by
  rcases h with h0 | hex
  · subst h0
    rfl
  · exact splitWSGo_append_endsWS a hex b []

lemma splitWSGo_dropWhile : ∀ x : List Char,
    splitWSGo (x.dropWhile Char.isWhitespace) [] = splitWSGo x [] := by
  intro x
  induction x with
  | nil => rfl
  | cons c cs ih =>
    by_cases hc : c.isWhitespace
    · have hstep : splitWSGo (c :: cs) [] = splitWSGo cs [] := by
        simp only [splitWSGo, hc, if_true, List.isEmpty_nil]
      rw [List.dropWhile_cons_of_pos hc, ih, hstep]
    · rw [List.dropWhile_cons_of_neg hc]

lemma allWS_takeWhile : ∀ l : List Char, AllWS (l.takeWhile Char.isWhitespace) := by
  intro l
  induction l with
  | nil => intro c hc; simp at hc
  | cons a as ih =>
    intro c hc
    rw [List.takeWhile_cons] at hc
    by_cases ha : a.isWhitespace
    · rw [if_pos ha] at hc
      rcases List.mem_cons.mp hc with rfl | h2
      · exact ha
      · exact ih c h2
    · rw [if_neg ha] at hc
      simp at hc

lemma pyStrip_decomp (x : List Char) :
    x.dropWhile Char.isWhitespace =
      pyStrip x ++
        ((x.dropWhile Char.isWhitespace).reverse.takeWhile Char.isWhitespace).reverse := by
  have h := List.takeWhile_append_dropWhile Char.isWhitespace
    (x.dropWhile Char.isWhitespace).reverse
  calc x.dropWhile Char.isWhitespace
      = ((x.dropWhile Char.isWhitespace).reverse).reverse := (List.reverse_reverse _).symm
    _ = (((x.dropWhile Char.isWhitespace).reverse.takeWhile Char.isWhitespace) ++
          ((x.dropWhile Char.isWhitespace).reverse.dropWhile Char.isWhitespace)).reverse := by
        rw [h]
    _ = pyStrip x ++
          ((x.dropWhile Char.isWhitespace).reverse.takeWhile Char.isWhitespace).reverse := by
        rw [List.reverse_append]
        rfl

lemma splitWS_pyStrip (x : List Char) : splitWS (pyStrip x) = splitWS x := by
  unfold splitWS
  rw [← splitWSGo_dropWhile x, pyStrip_decomp x]
  exact (splitWSGo_append_ws (pyStrip x) _
    (fun c hc => allWS_takeWhile _ c (List.mem_reverse.mp hc)) []).symm

lemma splitWS_eq_nil_of_strip (content : List Char) (h : pyStrip content = []) :
    splitWS content = [] := by
  rw [← splitWS_pyStrip content, h]
  rfl

lemma sectionWords_append (a b : List Sect) :
    sectionWords (a ++ b) = sectionWords a ++ sectionWords b := by
  unfold sectionWords
  rw [List.flatMap_append]

lemma nonHeadingWords_cons (line : List Char) (rest : List (List Char)) :
    nonHeadingWords (line :: rest) =
      (if (pyStrip line).isEmpty then []
       else if isHeadingLine (pyStrip line) then []
       else splitWS (pyStrip line)) ++ nonHeadingWords rest := by
  unfold nonHeadingWords
  rw [List.flatMap_cons]

lemma sectLoop_cons (line : List Char) (rest : List (List Char))
    (heading content : List Char) (acc : List Sect) :
    sectLoop (line :: rest) heading content acc =
      if (pyStrip line).isEmpty then sectLoop rest heading (content ++ ['\n']) acc
      else if isHeadingLine (pyStrip line) then
        sectLoop rest (pyStrip line) []
          (if !(pyStrip content).isEmpty then acc ++ [⟨heading, pyStrip content⟩] else acc)
      else sectLoop rest heading (content ++ pyStrip line ++ [' ']) acc := rfl

lemma sectLoop_words : ∀ (lines : List (List Char)) (heading content : List Char)
    (acc : List Sect), EndsWSP content →
    sectionWords (sectLoop lines heading content acc) =
      sectionWords acc ++ splitWS content ++ nonHeadingWords lines := by
  intro lines
  induction lines with
  | nil =>
    intro heading content acc _
    unfold sectLoop nonHeadingWords
    by_cases hs : (pyStrip content).isEmpty
    · have hnil : pyStrip content = [] := by
        cases hp : pyStrip content with
        | nil => rfl
        | cons a l => rw [hp] at hs; simp at hs
      rw [splitWS_eq_nil_of_strip content hnil]
      simp [hs]
    · simp only [hs, Bool.not_false, if_true, List.flatMap_nil]
      rw [sectionWords_append]
      unfold sectionWords
      simp only [List.flatMap_cons, List.flatMap_nil, List.append_nil]
      rw [splitWS_pyStrip content]
  | cons line rest ih =>
    intro heading content acc hE
    rw [sectLoop_cons, nonHeadingWords_cons]
    by_cases h1 : (pyStrip line).isEmpty
    · rw [if_pos h1, if_pos h1]
      rw [ih heading (content ++ ['\n']) acc (Or.inr ⟨content, '\n', rfl, rfl⟩)]
      rw [splitWS_append_ws content ['\n'] allWS_newline]
      rw [List.nil_append]
    · rw [if_neg h1, if_neg h1]
      by_cases h2 : isHeadingLine (pyStrip line)
      · rw [if_pos h2, if_pos h2]
        rw [ih (pyStrip line) [] _ (Or.inl rfl)]
        have hacc : sectionWords
            (if !(pyStrip content).isEmpty then acc ++ [⟨heading, pyStrip content⟩] else acc) =
            sectionWords acc ++ splitWS content := by
          by_cases hs : (pyStrip content).isEmpty
          · have hnil : pyStrip content = [] := by
              cases hp : pyStrip content with
              | nil => rfl
              | cons a l => rw [hp] at hs; simp at hs
            rw [splitWS_eq_nil_of_strip content hnil]
            simp [hs]
          · simp only [hs, Bool.not_false, if_true]
            rw [sectionWords_append]
            unfold sectionWords
            simp only [List.flatMap_cons, List.flatMap_nil, List.append_nil]
            rw [splitWS_pyStrip content]
        rw [hacc, splitWS_nil]
        simp
      · rw [if_neg h2, if_neg h2]
        rw [ih heading (content ++ pyStrip line ++ [' ']) acc
          (Or.inr ⟨content ++ pyStrip line, ' ', rfl, rfl⟩)]
        rw [splitWS_append_ws (content ++ pyStrip line) [' '] allWS_space]
        rw [splitWS_append_endsWS content (pyStrip line) hE]
        simp only [List.append_assoc]

lemma detectSectionsCore_words (text : List Char) :
    sectionWords (detectSectionsCore text) = nonHeadingWords (pySplitOn ['\n'] text) := by
  unfold detectSectionsCore
  rw [sectLoop_words (pySplitOn ['\n'] text) "Header".toList [] [] (Or.inl rfl)]
  rfl

lemma detect_sections_eq (text : List Char) :
    detect_sections text =
      if (detectSectionsCore text).isEmpty then [⟨"Full Text".toList, pyStrip text⟩]
      else detectSectionsCore text := rfl

/-- C1 counterexample: on the input `"text\nIntroduction"` the heading line
`"Introduction"` starts a section that never accumulates content and is
dropped: it occurs in no emitted section's heading or content, so
segmentation does drop a non-blank input line. -/
theorem claim1_counterexample :
    ¬ (∀ line ∈ nonBlankLines c1text, ∃ s ∈ detect_sections c1text,
        containsSub line s.heading = true ∨ containsSub line s.content = true) := by
  decide

/-- C1 (amended): segmentation preserves, in order, exactly the
whitespace-separated words of every non-blank line that is not classified
as a heading (heading lines survive only as section headings, and a heading
whose section accumulates no content is dropped); when the state machine
emits nothing, the fallback section carries the whole stripped text. -/
theorem claim1_segmentation_content (text : List Char) :
    (detectSectionsCore text ≠ [] →
      sectionWords (detect_sections text) = nonHeadingWords (pySplitOn ['\n'] text)) ∧
    (detectSectionsCore text = [] →
      detect_sections text = [⟨"Full Text".toList, pyStrip text⟩]) := by
  constructor
  · intro hne
    rw [detect_sections_eq]
    cases hc : detectSectionsCore text with
    | nil => exact absurd hc hne
    | cons s rest =>
      simp only [List.isEmpty_cons, Bool.false_eq_true, if_false]
      rw [← hc]
      exact detectSectionsCore_words text
  · intro he
    rw [detect_sections_eq, he]
    rfl

/-- C1 witness: on a heading followed by prose, the emitted contents'
words are exactly the words of the non-heading line. -/
theorem claim1_witness :
    detectSectionsCore "Introduction\nsome prose here".toList ≠ [] ∧
    sectionWords (detect_sections "Introduction\nsome prose here".toList) =
      nonHeadingWords (pySplitOn ['\n'] "Introduction\nsome prose here".toList) :=
  ⟨by decide, (claim1_segmentation_content "Introduction\nsome prose here".toList).1 (by decide)⟩

end PaperReader
